import Mathlib

/-!
# Verification of the RS232 CI-V / CAT monitor core

Shallow embedding of the framing/decoding core of
`RS232_Raw_Monitor_Icom_Elecraft_V2_ManualTX.ino`, together with theorems
settling the frozen claims about it.  Machine integers are modelled as `Nat`
(the source uses `uint8_t`/`uint32_t`/`size_t`; overflow points are modelled
explicitly where they matter), fallible C code returning a boolean-plus-out
parameter is modelled with `Option`/`Except`.
-/

set_option maxHeartbeats 1000000
set_option maxRecDepth 4096

namespace RS232Monitor

/-! ## Constants (namespace `Defaults` in the source) -/

/-- `Defaults::RX_BUF_MAX` — capacity of the RX accumulation buffer. -/
def RX_BUF_MAX : Nat := 512

/-- `Defaults::TX_MAX_BYTES` — TX byte budget, also the size of `gLastTx`. -/
def TX_MAX_BYTES : Nat := 256

/-! ## CI-V BCD frequency decoding (`bcdToInt2`, `decodeCivFreqHz`) -/

/-- Source `bcdToInt2`: splits a byte into its two nibbles and combines them
as a two-digit decimal value; a nibble above 9 is an error (the source
returns `-1`, modelled as `none`).  `b % 16` is `b & 0x0F`, `b / 16 % 16` is
`(b >> 4) & 0x0F`. -/
def bcdToInt2 (b : Nat) : Option Nat :=
  if b % 16 > 9 ∨ b / 16 % 16 > 9 then none
  else some ((b / 16 % 16) * 10 + b % 16)

/-- Source `decodeCivFreqHz`: reads the five payload bytes from index 4 down
to index 0 (most-significant pair first), each contributing two decimal
digits, folds the ten digits into a hertz value, and rejects values that do
not fit `uint32_t` (`hz > 0xFFFFFFFF`).  The source's early `return false`
on a bad nibble is the `Option` bind. -/
def decodeCivFreqHz (b : List Nat) : Option Nat := do
  let v4 ← bcdToInt2 (b.getD 4 0)
  let v3 ← bcdToInt2 (b.getD 3 0)
  let v2 ← bcdToInt2 (b.getD 2 0)
  let v1 ← bcdToInt2 (b.getD 1 0)
  let v0 ← bcdToInt2 (b.getD 0 0)
  let digits : List Nat := [v4 / 10, v4 % 10, v3 / 10, v3 % 10, v2 / 10, v2 % 10,
    v1 / 10, v1 % 10, v0 / 10, v0 % 10]
  let hz := digits.foldl (fun acc d => acc * 10 + d) 0
  if hz > 4294967295 then none else some hz

/-- BCD encoding as described by the claim (the repository has no encoder):
byte `i` holds digit pair `2i, 2i+1` counted from the least-significant
pair, the high nibble holding the more significant digit of the pair, and
the bytes are ordered most-significant-byte-last. -/
def encodeBcd5 (H : Nat) : List Nat :=
  [ (H / 10 % 10) * 16 + H % 10,
    (H / 1000 % 10) * 16 + H / 100 % 10,
    (H / 100000 % 10) * 16 + H / 10000 % 10,
    (H / 10000000 % 10) * 16 + H / 1000000 % 10,
    (H / 1000000000 % 10) * 16 + H / 100000000 % 10 ]

/-! ## CI-V frame shape and frame extraction -/

/-- Source `isCivFrame`: length at least 6, starts with the two `0xFE`
start-sentinel bytes, ends with the `0xFD` end sentinel. -/
def isCivFrame (data : List Nat) : Bool :=
  decide (6 ≤ data.length ∧ data.getD 0 0 = 254 ∧ data.getD 1 0 = 254 ∧
    data.getD (data.length - 1) 0 = 253)

/-- Inner loop of source `findCivFrame`: index of the first `0xFD` byte in
the given suffix (the source scans `j = i+2 .. len-1`; the index returned
here is relative to the suffix start). -/
def findFdIdx : List Nat → Option Nat
  | [] => none
  | b :: rest => if b = 253 then some 0 else (findFdIdx rest).map (· + 1)

/-- Source `findCivFrame`, recursion over the outer scan position `i`
(modelled structurally over the list; indices in the result are shifted
back to absolute positions): find the first `0xFE 0xFE` pair that has a
later `0xFD`, and return the inclusive span. -/
def findCivFrameGo : List Nat → Option (Nat × Nat)
  | [] => none
  | [_] => none
  | a :: b :: rest =>
    if a = 254 ∧ b = 254 then
      match findFdIdx rest with
      | some j => some (0, j + 2)
      | none => (findCivFrameGo (b :: rest)).map (fun p => (p.1 + 1, p.2 + 1))
    else (findCivFrameGo (b :: rest)).map (fun p => (p.1 + 1, p.2 + 1))

/-- Source `findCivFrame` on the whole buffer. -/
def findCivFrame (data : List Nat) : Option (Nat × Nat) := findCivFrameGo data

/-- The frame-extraction `while` loop of `flushRxLine` (lines 526–537):
repeatedly find a frame, cut it out, and continue after its end byte.  The
cursor advances by at least one byte per iteration, so `fuel = l.length`
(supplied by `extractCivFrames`) never runs out before the scan fails; this
is proved as `extractCivFramesGo_fuel_irrelevant`. -/
def extractCivFramesGo : Nat → List Nat → List (List Nat)
  | 0, _ => []
  | fuel + 1, l =>
    match findCivFrame l with
    | none => []
    | some (s, e) => ((l.drop s).take (e - s + 1)) :: extractCivFramesGo fuel (l.drop (e + 1))

/-- All CI-V frames extracted from one flushed buffer, in scan order. -/
def extractCivFrames (l : List Nat) : List (List Nat) :=
  extractCivFramesGo l.length l

/-! ## Echo filter -/

/-- Echo-strip decision at the top of `flushRxLine` (lines 496–509): given
the three configuration/record flags, the last-TX bytes and the flushed RX
buffer, returns the display offset (`startOffset`) and whether the
"(Echo-Filter: TX-Echo am Anfang entfernt)" notice is printed
(`removedEchoAtStart`).  The byte-for-byte comparison loop over the first
`gLastTxLen` bytes is `rxBuf.take lastTx.length = lastTx`. -/
def civEchoStrip (civDecode civEchoFilter lastTxIsCiv : Bool)
    (lastTx rxBuf : List Nat) : Nat × Bool :=
  if civDecode = true ∧ civEchoFilter = true ∧ lastTxIsCiv = true ∧
      lastTx.length ≤ rxBuf.length ∧ 0 < lastTx.length then
    if rxBuf.take lastTx.length = lastTx ∧ lastTx.length < rxBuf.length then
      (lastTx.length, true)
    else (0, false)
  else (0, false)


/-! ## Byte ingest, gap timer, and flush (`onRxByte`, `flushRxLine`, `loop`) -/

/-- The `uint32_t` subtraction `now - gLastRxMs` used by the gap checks
(exact for monotonic times below `2^32`). -/
def elapsedMs (now last : Nat) : Nat := (now + 4294967296 - last) % 4294967296

/-- RX-side mutable state: `gRxBuf`/`gRxLen` as a list, `gLastRxMs`, and a
log of the buffers handed to `flushRxLine` (with the flush time) standing
for the display/decode output. -/
structure RxState where
  buf : List Nat
  lastRxMs : Nat
  flushes : List (Nat × List Nat)
deriving DecidableEq

/-- `flushRxLine` as far as the RX buffer is concerned: an empty buffer
returns immediately; otherwise the buffer content is emitted and `gRxLen`
is reset to 0.  `gLastRxMs` is not touched. -/
def flushRx (t : Nat) (st : RxState) : RxState :=
  if st.buf = [] then st
  else { buf := [], lastRxMs := st.lastRxMs, flushes := st.flushes ++ [(t, st.buf)] }

/-- Source `onRxByte`: gap-flush check, timestamp update, capacity-checked
append (a full buffer is flushed first, then the byte is inserted), and the
immediate flush on `;` in Elecraft mode. -/
def onRxByte (gap : Nat) (protoEle : Bool) (b t : Nat) (st : RxState) : RxState :=
  let st1 := if st.buf ≠ [] ∧ elapsedMs t st.lastRxMs > gap then flushRx t st else st
  let st2 : RxState := { st1 with lastRxMs := t }
  let st3 : RxState :=
    if st2.buf.length < RX_BUF_MAX then { st2 with buf := st2.buf ++ [b] }
    else
      let f := flushRx t st2
      { f with buf := f.buf ++ [b] }
  if b = 59 ∧ protoEle = true then flushRx t st3 else st3

/-- The gap poll in `loop` (line 797): flush a non-empty buffer whose age
strictly exceeds the gap threshold. -/
def pollGap (gap t : Nat) (st : RxState) : RxState :=
  if st.buf ≠ [] ∧ elapsedMs t st.lastRxMs > gap then flushRx t st else st

/-- A timestamped input to the ingest machinery: a byte arrival handled by
`onRxByte`, or one pass of the `loop` gap check. -/
inductive RxEvent where
  | byte (b t : Nat)
  | poll (t : Nat)
deriving DecidableEq

/-- Run the ingest machinery over a sequence of events. -/
def runRx (gap : Nat) (protoEle : Bool) : RxState → List RxEvent → RxState
  | st, [] => st
  | st, RxEvent.byte b t :: es => runRx gap protoEle (onRxByte gap protoEle b t st) es
  | st, RxEvent.poll t :: es => runRx gap protoEle (pollGap gap t st) es

/-- All bytes emitted by flushes so far, in order. -/
def flushedBytes (st : RxState) : List Nat := (st.flushes.map Prod.snd).flatten

/-- All bytes ingested by a sequence of events, in order. -/
def ingestedBytes (es : List RxEvent) : List Nat :=
  es.filterMap (fun e => match e with | RxEvent.byte b _ => some b | RxEvent.poll _ => none)

/-- Startup state: empty buffer, `gLastRxMs = 0`, nothing flushed. -/
def initRxState : RxState := { buf := [], lastRxMs := 0, flushes := [] }


/-! ## Hex TX validation (`isHexChar`, `hexNibble`, `parseHexString`) and
the TX paths (`sendHexLine`, `sendAsciiRaw`) -/

/-- Source `isHexChar` (character comparisons are code-point comparisons:
48–57 is `0`–`9`, 65–70 is `A`–`F`, 97–102 is `a`–`f`). -/
def isHexChar (c : Char) : Bool :=
  decide ((48 ≤ c.toNat ∧ c.toNat ≤ 57) ∨ (65 ≤ c.toNat ∧ c.toNat ≤ 70) ∨
    (97 ≤ c.toNat ∧ c.toNat ≤ 102))

/-- Source `hexNibble`; the source's `-1` error result is `none`. -/
def hexNibble (c : Char) : Option Nat :=
  if 48 ≤ c.toNat ∧ c.toNat ≤ 57 then some (c.toNat - 48)
  else if 65 ≤ c.toNat ∧ c.toNat ≤ 70 then some (10 + (c.toNat - 65))
  else if 97 ≤ c.toNat ∧ c.toNat ≤ 102 then some (10 + (c.toNat - 97))
  else none

/-- The C `isspace` set used by Arduino `String::trim` (space, TAB, LF, VT,
FF, CR). -/
def isSpaceC (c : Char) : Bool :=
  decide (c.toNat = 32 ∨ c.toNat = 9 ∨ c.toNat = 10 ∨ c.toNat = 11 ∨
    c.toNat = 12 ∨ c.toNat = 13)

/-- Arduino `String::trim`: strip `isspace` characters from both ends. -/
def trimC (l : List Char) : List Char :=
  ((l.dropWhile isSpaceC).reverse.dropWhile isSpaceC).reverse

/-- The whitespace characters skipped inside `parseHexString`'s scan loop
(space, TAB, CR, LF only). -/
def isWs4 (c : Char) : Bool :=
  decide (c.toNat = 32 ∨ c.toNat = 9 ∨ c.toNat = 13 ∨ c.toNat = 10)

/-- The `compact`-building loop of `parseHexString`: skip whitespace, keep
hex digits, fail on the first other character. -/
def scanHexChars : List Char → Except String (List Char)
  | [] => .ok []
  | c :: rest =>
    if isWs4 c then scanHexChars rest
    else if isHexChar c then (scanHexChars rest).map (fun l => c :: l)
    else .error "Ungueltiges Zeichen im Hex-String."

/-- The byte-building loop of `parseHexString`: two hex digits per byte,
high nibble first.  (The one-element and `none` cases mirror the source's
defensive `hi < 0 || lo < 0` check; they are unreachable after the scan.) -/
def hexPairsToBytes : List Char → Except String (List Nat)
  | [] => .ok []
  | [_] => .error "Ungueltiges Hex-Byte."
  | hi :: lo :: rest =>
    match hexNibble hi, hexNibble lo with
    | some h, some l => (hexPairsToBytes rest).map (fun bs => (h * 16 + l) :: bs)
    | _, _ => .error "Ungueltiges Hex-Byte."

/-- Source `parseHexString`: trim, reject empty input, strip whitespace /
reject non-hex characters, reject an odd digit count, reject more than
`outMax` bytes, else convert digit pairs to bytes. -/
def parseHexString (input : String) (outMax : Nat) : Except String (List Nat) :=
  let s := trimC input.data
  if s.length = 0 then .error "Leere Eingabe."
  else
    match scanHexChars s with
    | .error e => .error e
    | .ok compact =>
      if compact.length % 2 ≠ 0 then .error "Ungerade Anzahl Hex-Zeichen (Byte fehlt)."
      else if compact.length / 2 > outMax then
        .error ("Zu viele Bytes (max. " ++ toString outMax ++ ").")
      else hexPairsToBytes compact

instance {e a : Type} [DecidableEq e] [DecidableEq a] : DecidableEq (Except e a) := fun
  | .ok x, .ok y =>
    if h : x = y then .isTrue (by rw [h]) else
      .isFalse (by intro hc; injection hc; exact h ‹_›)
  | .ok _, .error _ => .isFalse (by intro hc; cases hc)
  | .error _, .ok _ => .isFalse (by intro hc; cases hc)
  | .error x, .error y =>
    if h : x = y then .isTrue (by rw [h]) else
      .isFalse (by intro hc; injection hc; exact h ‹_›)

/-- The last-TX record: `gLastTx`/`gLastTxLen` as a list plus
`gLastTxIsCiv`. -/
structure TxRecord where
  lastTx : List Nat
  lastTxIsCiv : Bool
deriving DecidableEq

/-- Source `sendHexLine`: on a parse error, print the error and return with
nothing transmitted and the record untouched; on success, record
`min(len, 256)` bytes and the frame-shape flag, then transmit the bytes.
Result: (new record, transmitted bytes, reported error). -/
def sendHexLine (s : String) (txr : TxRecord) : TxRecord × List Nat × Option String :=
  match parseHexString s TX_MAX_BYTES with
  | .error e => (txr, [], some e)
  | .ok bytes =>
    ({ lastTx := bytes.take TX_MAX_BYTES, lastTxIsCiv := isCivFrame bytes }, bytes, none)

/-- Source `sendAsciiRaw`: trim, transmit the whole trimmed text, but copy
only the first `min(len, 256)` bytes into the record buffer; the
frame-shape flag is computed on that truncated copy.
Result: (new record, transmitted bytes). -/
def sendAsciiRaw (s : String) (txr : TxRecord) : TxRecord × List Nat :=
  let t := trimC s.data
  let transmitted := t.map Char.toNat
  let bytes := (t.take TX_MAX_BYTES).map Char.toNat
  ({ lastTx := bytes.take TX_MAX_BYTES, lastTxIsCiv := isCivFrame bytes }, transmitted)


/-! ## Frequency rendering (`printHzAsMHz`) -/

/-- Decimal digit characters of `n`, most significant first, as produced by
`%lu`; structural on a fuel that `decRepr` instantiates large enough. -/
def decDigitsGo : Nat → Nat → List Char
  | 0, _ => []
  | fuel + 1, n =>
    if n = 0 then [] else decDigitsGo fuel (n / 10) ++ [Char.ofNat (48 + n % 10)]

/-- The decimal representation printed by `%lu` / `Serial.print` ("0" for
zero). -/
def decRepr (n : Nat) : List Char :=
  if n = 0 then ['0'] else decDigitsGo n n

/-- Source `printHzAsMHz`: split into whole megahertz and remainder;
`snprintf(buf, 7, "%06lu", rem)` produces the decimal representation of
`rem` left-padded with `0` to width 6, of which the source prints
`buf[0] buf[1] buf[2] . buf[3] buf[4] buf[5]` between the megahertz part
and `" MHz"`. -/
def printHzAsMHz (hz : Nat) : String :=
  let mhz := hz / 1000000
  let rem := hz % 1000000
  let buf := List.leftpad 6 '0' (decRepr rem)
  String.mk (decRepr mhz) ++ "." ++
    String.mk [buf.getD 0 ' ', buf.getD 1 ' ', buf.getD 2 ' '] ++ "." ++
    String.mk [buf.getD 3 ' ', buf.getD 4 ' ', buf.getD 5 ' '] ++ " MHz"

/-- The rendering format as the spec words it: the whole-megahertz part, a
dot, the first 3 digits of the zero-padded 6-digit remainder, a dot, the
last 3 digits of that remainder, then " MHz". -/
def specRenderMHz (hz : Nat) : String :=
  let padded := List.leftpad 6 '0' (decRepr (hz % 1000000))
  String.mk (decRepr (hz / 1000000)) ++ "." ++
    String.mk (padded.take 3) ++ "." ++ String.mk (padded.drop 3) ++ " MHz"

/-! ## Elecraft accumulation and the raw hex dump -/

/-- The Elecraft accumulation loop of `flushRxLine` (lines 540–552): CR
(13) and LF (10) bytes are skipped silently, every other byte is appended,
and each `;` (59) emits the accumulated message (terminator included) and
resets the accumulator; a trailing unterminated remainder is dropped. -/
def eleSplitGo (accum : List Nat) : List Nat → List (List Nat)
  | [] => []
  | b :: rest =>
    if b = 13 ∨ b = 10 then eleSplitGo accum rest
    else if b = 59 then (accum ++ [b]) :: eleSplitGo [] rest
    else eleSplitGo (accum ++ [b]) rest

/-- The messages handed to `decodeAndPrintElecraft` for one flushed
buffer. -/
def eleSplit (buf : List Nat) : List (List Nat) := eleSplitGo [] buf

/-- One uppercase hex digit (`Serial.print(v, HEX)` digit alphabet). -/
def hexDigit (n : Nat) : Char := Char.ofNat (if n < 10 then 48 + n else 55 + n)

/-- Source `printHex2`: two-digit uppercase hex rendering of one byte. -/
def hex2 (v : Nat) : String := String.mk [hexDigit (v / 16), hexDigit (v % 16)]

/-- `printHexArray` output as the list of per-byte tokens (the source
prints them separated by single spaces). -/
def hexTokens (l : List Nat) : List String := l.map hex2

/-- Inverse of `hexDigit`, to show the dump is lossless. -/
def unhexDigit (c : Char) : Option Nat :=
  if 48 ≤ c.toNat ∧ c.toNat ≤ 57 then some (c.toNat - 48)
  else if 65 ≤ c.toNat ∧ c.toNat ≤ 70 then some (10 + (c.toNat - 65))
  else none

/-- Inverse of `hex2` on bytes. -/
def unhex2 (s : String) : Option Nat :=
  match s.data with
  | [h, l] =>
    match unhexDigit h, unhexDigit l with
    | some vh, some vl => some (vh * 16 + vl)
    | _, _ => none
  | _ => none

end RS232Monitor

namespace RS232Monitor

/-! ## Theorems about the BCD codec -/

theorem opt_bind_const_none {α β : Type} (x : Option α) :
    x.bind (fun _ => (none : Option β)) = none := by
  cases x <;> rfl

theorem bcdToInt2_encoded (h l : Nat) (hh : h ≤ 9) (hl : l ≤ 9) :
    bcdToInt2 (h * 16 + l) = some (h * 10 + l) := by
  unfold bcdToInt2
  rw [if_neg]
  · congr 1
    omega
  · omega

theorem bcdToInt2_bad (b : Nat) (hb : b % 16 > 9 ∨ b / 16 % 16 > 9) :
    bcdToInt2 b = none := by
  unfold bcdToInt2
  rw [if_pos hb]

/-- **C2** (amended): encoding a hertz value `H ≤ 4294967295` into 5 BCD
bytes (least-significant digit pair in byte 0, bytes ordered
most-significant-byte-last) and decoding with `decodeCivFreqHz` returns `H`
exactly; and any 5-byte input in which some byte has a nibble greater
than 9 makes the decoder report a decode error (`none`), never a wrong
value.  (The original claim allowed `H` up to `9999999999`, but the decoder
rejects any value above `0xFFFFFFFF`.) -/
theorem decodeCivFreqHz_encodeBcd5 :
    (∀ H : Nat, H ≤ 4294967295 → decodeCivFreqHz (encodeBcd5 H) = some H) ∧
    (∀ b : List Nat,
      (∃ i, i < 5 ∧ (b.getD i 0 % 16 > 9 ∨ b.getD i 0 / 16 % 16 > 9)) →
      decodeCivFreqHz b = none) := by
  constructor
  · intro H hH
    have e0 : bcdToInt2 ((encodeBcd5 H).getD 0 0)
        = some ((H / 10 % 10) * 10 + H % 10) :=
      bcdToInt2_encoded _ _ (by omega) (by omega)
    have e1 : bcdToInt2 ((encodeBcd5 H).getD 1 0)
        = some ((H / 1000 % 10) * 10 + H / 100 % 10) :=
      bcdToInt2_encoded _ _ (by omega) (by omega)
    have e2 : bcdToInt2 ((encodeBcd5 H).getD 2 0)
        = some ((H / 100000 % 10) * 10 + H / 10000 % 10) :=
      bcdToInt2_encoded _ _ (by omega) (by omega)
    have e3 : bcdToInt2 ((encodeBcd5 H).getD 3 0)
        = some ((H / 10000000 % 10) * 10 + H / 1000000 % 10) :=
      bcdToInt2_encoded _ _ (by omega) (by omega)
    have e4 : bcdToInt2 ((encodeBcd5 H).getD 4 0)
        = some ((H / 1000000000 % 10) * 10 + H / 100000000 % 10) :=
      bcdToInt2_encoded _ _ (by omega) (by omega)
    unfold decodeCivFreqHz
    rw [e4, e3, e2, e1, e0]
    simp only [Option.bind_eq_bind, Option.some_bind, List.foldl]
    have s4a : ((H / 1000000000 % 10) * 10 + H / 100000000 % 10) / 10
        = H / 1000000000 % 10 := by omega
    have s4b : ((H / 1000000000 % 10) * 10 + H / 100000000 % 10) % 10
        = H / 100000000 % 10 := by omega
    have s3a : ((H / 10000000 % 10) * 10 + H / 1000000 % 10) / 10
        = H / 10000000 % 10 := by omega
    have s3b : ((H / 10000000 % 10) * 10 + H / 1000000 % 10) % 10
        = H / 1000000 % 10 := by omega
    have s2a : ((H / 100000 % 10) * 10 + H / 10000 % 10) / 10
        = H / 100000 % 10 := by omega
    have s2b : ((H / 100000 % 10) * 10 + H / 10000 % 10) % 10
        = H / 10000 % 10 := by omega
    have s1a : ((H / 1000 % 10) * 10 + H / 100 % 10) / 10
        = H / 1000 % 10 := by omega
    have s1b : ((H / 1000 % 10) * 10 + H / 100 % 10) % 10
        = H / 100 % 10 := by omega
    have s0a : ((H / 10 % 10) * 10 + H % 10) / 10 = H / 10 % 10 := by omega
    have s0b : ((H / 10 % 10) * 10 + H % 10) % 10 = H % 10 := by omega
    rw [s4a, s4b, s3a, s3b, s2a, s2b, s1a, s1b, s0a, s0b]
    rw [if_neg (by omega)]
    exact congrArg some (by omega)
  · rintro b ⟨i, hi, hbad⟩
    have hnone : bcdToInt2 (b.getD i 0) = none := bcdToInt2_bad _ hbad
    unfold decodeCivFreqHz
    interval_cases i <;>
      simp only [Option.bind_eq_bind, hnone, Option.none_bind, opt_bind_const_none]

theorem decodeCivFreqHz_encodeBcd5_witness :
    decodeCivFreqHz (encodeBcd5 14074000) = some 14074000 ∧
    decodeCivFreqHz [10, 0, 0, 0, 0] = none :=
  ⟨decodeCivFreqHz_encodeBcd5.1 14074000 (by decide),
   decodeCivFreqHz_encodeBcd5.2 [10, 0, 0, 0, 0] ⟨0, by decide, by decide⟩⟩

/-- **C2** counterexample to the claim as stated: `9999999999` is within the
claim's stated range `0 ≤ H ≤ 9999999999`, its 5-byte BCD encoding is
well-formed (every nibble is 9), yet the decoder reports a decode error
instead of returning the value, because `9999999999 > 0xFFFFFFFF`. -/
theorem decodeCivFreqHz_encodeBcd5_counterexample :
    decodeCivFreqHz (encodeBcd5 9999999999) = none ∧
    decodeCivFreqHz (encodeBcd5 9999999999) ≠ some 9999999999 := by
  decide


/-! ## Theorems about frame extraction (C4) -/

theorem findFdIdx_lt_length (l : List Nat) (j : Nat) (h : findFdIdx l = some j) :
    j < l.length := by
  induction l generalizing j with
  | nil => simp [findFdIdx] at h
  | cons b rest ih =>
    by_cases hb : b = 253
    · simp [findFdIdx, hb] at h
      simp [List.length_cons]
      omega
    · simp [findFdIdx, hb] at h
      obtain ⟨j1, hj1, rfl⟩ := h
      have := ih j1 hj1
      simp [List.length_cons]
      omega

theorem findFdIdx_append (mid r : List Nat) (hno : 253 ∉ mid) :
    findFdIdx (mid ++ 253 :: r) = some mid.length := by
  induction mid with
  | nil => simp [findFdIdx]
  | cons b rest ih =>
    have hb : b ≠ 253 := fun hb => hno (hb ▸ List.mem_cons_self b rest)
    have hrest : 253 ∉ rest := fun hm => hno (List.mem_cons_of_mem b hm)
    simp [findFdIdx, hb, ih hrest]

theorem findCivFrameGo_bounds (l : List Nat) (s e : Nat)
    (h : findCivFrameGo l = some (s, e)) : s + 2 ≤ e ∧ e < l.length := by
  induction l generalizing s e with
  | nil => simp [findCivFrameGo] at h
  | cons a rest ih =>
    match rest, h with
    | [], h => simp [findCivFrameGo] at h
    | b :: rest1, h =>
      by_cases hab : a = 254 ∧ b = 254
      · rw [findCivFrameGo, if_pos hab] at h
        cases hfd : findFdIdx rest1 with
        | some j =>
          rw [hfd] at h
          have hj := findFdIdx_lt_length rest1 j hfd
          simp at h
          obtain ⟨rfl, rfl⟩ := h
          simp [List.length_cons]
          omega
        | none =>
          rw [hfd] at h
          simp at h
          obtain ⟨s1, e1, hse, hs, he⟩ := h
          have := ih s1 e1 hse
          simp only [List.length_cons] at this ⊢
          omega
      · rw [findCivFrameGo, if_neg hab] at h
        simp at h
        obtain ⟨s1, e1, hse, hs, he⟩ := h
        have := ih s1 e1 hse
        simp only [List.length_cons] at this ⊢
        omega

theorem extractCivFramesGo_agree (n : Nat) :
    ∀ (l : List Nat) (f1 f2 : Nat), l.length ≤ n → l.length ≤ f1 → l.length ≤ f2 →
      extractCivFramesGo f1 l = extractCivFramesGo f2 l := by
  induction n with
  | zero =>
    intro l f1 f2 hn _ _
    have hl : l = [] := List.length_eq_zero.mp (by omega)
    subst hl
    cases f1 <;> cases f2 <;> rfl
  | succ n ih =>
    intro l f1 f2 hn h1 h2
    rcases l with _ | ⟨a, rest⟩
    · cases f1 <;> cases f2 <;> rfl
    · simp only [List.length_cons] at hn h1 h2
      rcases f1 with _ | f1
      · omega
      rcases f2 with _ | f2
      · omega
      cases hfc : findCivFrame (a :: rest) with
      | none => rw [extractCivFramesGo, extractCivFramesGo, hfc]
      | some p =>
        obtain ⟨s, e⟩ := p
        rw [extractCivFramesGo, extractCivFramesGo, hfc]
        dsimp only
        congr 1
        have hb := findCivFrameGo_bounds _ _ _ hfc
        simp only [List.length_cons] at hb
        apply ih
        · rw [List.length_drop]
          simp only [List.length_cons]
          omega
        · rw [List.length_drop]
          simp only [List.length_cons]
          omega
        · rw [List.length_drop]
          simp only [List.length_cons]
          omega

/-- Using the real loop fuel `l.length` is enough: any larger fuel computes
the same extraction (the loop cursor strictly advances each iteration). -/
theorem extractCivFramesGo_fuel_irrelevant (l : List Nat) (fuel : Nat)
    (h : l.length ≤ fuel) : extractCivFramesGo fuel l = extractCivFrames l :=
  extractCivFramesGo_agree l.length l fuel l.length le_rfl h le_rfl

/-- A well-formed frame whose interior holds no `0xFD` byte is extracted
from the head of a buffer, and the scan continues after its end byte. -/
theorem extract_cons_frame (mid rest : List Nat) (h3 : 3 ≤ mid.length) (hno : 253 ∉ mid) :
    extractCivFrames ((254 :: 254 :: (mid ++ [253])) ++ rest) =
      (254 :: 254 :: (mid ++ [253])) :: extractCivFrames rest := by
  have hshape : (254 :: 254 :: (mid ++ [253])) ++ rest
      = 254 :: 254 :: (mid ++ 253 :: rest) := by simp
  have hfind : findCivFrame ((254 :: 254 :: (mid ++ [253])) ++ rest)
      = some (0, mid.length + 2) := by
    rw [hshape]
    show findCivFrameGo _ = _
    rw [findCivFrameGo, if_pos ⟨rfl, rfl⟩, findFdIdx_append mid rest hno]
  have hlen : ((254 :: 254 :: (mid ++ [253])) ++ rest).length
      = mid.length + 3 + rest.length := by
    simp
    omega
  unfold extractCivFrames
  rw [hlen]
  have hsucc : mid.length + 3 + rest.length = (mid.length + 2 + rest.length) + 1 := by omega
  rw [hsucc, extractCivFramesGo, hfind]
  dsimp only
  have hframe : List.take (mid.length + 2 - 0 + 1)
      (List.drop 0 ((254 :: 254 :: (mid ++ [253])) ++ rest))
      = 254 :: 254 :: (mid ++ [253]) := by
    rw [List.drop_zero]
    have hlf : (254 :: 254 :: (mid ++ [253])).length = mid.length + 2 - 0 + 1 := by
      simp
    rw [show mid.length + 2 - 0 + 1 = (254 :: 254 :: (mid ++ [253])).length from hlf.symm]
    exact List.take_left _ _
  have hdrop : List.drop (mid.length + 2 + 1) ((254 :: 254 :: (mid ++ [253])) ++ rest)
      = rest := by
    have hlf : (254 :: 254 :: (mid ++ [253])).length = mid.length + 2 + 1 := by
      simp
    rw [show mid.length + 2 + 1 = (254 :: 254 :: (mid ++ [253])).length from hlf.symm]
    exact List.drop_left _ _
  rw [hframe, hdrop]
  congr 1
  exact extractCivFramesGo_agree rest.length rest _ _ le_rfl (by omega) le_rfl

/-- **C4** (amended): for a buffer holding exactly one well-formed frame
whose interior bytes contain no end-sentinel `0xFD`, extraction yields
exactly that frame; for two such frames concatenated, extraction yields
both, in order.  (The original claim, quantified over all well-formed
frames, fails when a frame's interior contains a `0xFD` byte: the scan
then ends the frame at that earlier byte — see the counterexample.) -/
theorem extractCivFrames_single_and_pair :
    (∀ mid : List Nat, 3 ≤ mid.length → 253 ∉ mid →
      extractCivFrames (254 :: 254 :: (mid ++ [253])) = [254 :: 254 :: (mid ++ [253])]) ∧
    (∀ mid1 mid2 : List Nat, 3 ≤ mid1.length → 253 ∉ mid1 → 3 ≤ mid2.length → 253 ∉ mid2 →
      extractCivFrames ((254 :: 254 :: (mid1 ++ [253])) ++ (254 :: 254 :: (mid2 ++ [253]))) =
        [254 :: 254 :: (mid1 ++ [253]), 254 :: 254 :: (mid2 ++ [253])]) := by
  have hnil : extractCivFrames ([] : List Nat) = [] := rfl
  constructor
  · intro mid h3 hno
    have h := extract_cons_frame mid [] h3 hno
    rw [List.append_nil, hnil] at h
    exact h
  · intro mid1 mid2 h31 hno1 h32 hno2
    rw [extract_cons_frame mid1 _ h31 hno1]
    have h := extract_cons_frame mid2 [] h32 hno2
    rw [List.append_nil, hnil] at h
    rw [h]

theorem extractCivFrames_single_and_pair_witness :
    extractCivFrames (254 :: 254 :: ([148, 224, 3] ++ [253]))
      = [254 :: 254 :: ([148, 224, 3] ++ [253])] ∧
    extractCivFrames ((254 :: 254 :: ([148, 224, 3] ++ [253])) ++
        (254 :: 254 :: ([0, 1, 2] ++ [253])))
      = [254 :: 254 :: ([148, 224, 3] ++ [253]), 254 :: 254 :: ([0, 1, 2] ++ [253])] :=
  ⟨extractCivFrames_single_and_pair.1 [148, 224, 3] (by decide) (by decide),
   extractCivFrames_single_and_pair.2 [148, 224, 3] [0, 1, 2]
     (by decide) (by decide) (by decide) (by decide)⟩

/-- **C4** counterexample to the claim as stated: `FE FE FD FD FD FD` is a
well-formed frame by the stated shape (length 6, start sentinel first, end
sentinel last — certified by the source's own `isCivFrame`), yet extraction
yields the shorter span `FE FE FD`, because the forward scan stops at the
first `0xFD` byte. -/
theorem extractCivFrames_counterexample :
    isCivFrame [254, 254, 253, 253, 253, 253] = true ∧
    extractCivFrames [254, 254, 253, 253, 253, 253] = [[254, 254, 253]] ∧
    extractCivFrames [254, 254, 253, 253, 253, 253] ≠ [[254, 254, 253, 253, 253, 253]] := by
  decide

/-! ## Theorems about the echo filter (C1) -/

/-- **C1**: with autodecode and echo filtering enabled and a non-empty
last-TX record flagged as binary-frame-shaped: a flushed buffer that is
strictly longer than the record and starts with it byte-for-byte is
displayed/decoded with that head removed and the echo-stripped notice is
emitted; a flushed buffer exactly equal to the record is not stripped, no
notice is emitted, and the full buffer is displayed. -/
theorem civEchoStrip_spec :
    (∀ lastTx c rxBuf : List Nat, lastTx ≠ [] → c ≠ [] → rxBuf = lastTx ++ c →
      civEchoStrip true true true lastTx rxBuf = (lastTx.length, true) ∧
      rxBuf.drop (civEchoStrip true true true lastTx rxBuf).1 = c) ∧
    (∀ lastTx : List Nat, lastTx ≠ [] →
      civEchoStrip true true true lastTx lastTx = (0, false) ∧
      lastTx.drop (civEchoStrip true true true lastTx lastTx).1 = lastTx) := by
  constructor
  · rintro lastTx c rxBuf hne hcne rfl
    have hlt : lastTx.length < (lastTx ++ c).length := by
      rw [List.length_append]
      have := List.length_pos.mpr hcne
      omega
    have htake : (lastTx ++ c).take lastTx.length = lastTx := List.take_left _ _
    have hcond : civEchoStrip true true true lastTx (lastTx ++ c)
        = (lastTx.length, true) := by
      unfold civEchoStrip
      rw [if_pos ⟨rfl, rfl, rfl, le_of_lt hlt, List.length_pos.mpr hne⟩,
        if_pos ⟨htake, hlt⟩]
    refine ⟨hcond, ?_⟩
    rw [hcond]
    exact List.drop_left _ _
  · intro lastTx hne
    have hcond : civEchoStrip true true true lastTx lastTx = (0, false) := by
      unfold civEchoStrip
      rw [if_pos ⟨rfl, rfl, rfl, le_rfl, List.length_pos.mpr hne⟩, if_neg]
      rintro ⟨-, hlt⟩
      exact absurd hlt (lt_irrefl _)
    refine ⟨hcond, ?_⟩
    rw [hcond]
    exact List.drop_zero _

theorem civEchoStrip_spec_witness :
    (civEchoStrip true true true [254, 254, 148, 224, 3, 253]
        ([254, 254, 148, 224, 3, 253] ++ [7]) = ([254, 254, 148, 224, 3, 253].length, true) ∧
      ([254, 254, 148, 224, 3, 253] ++ [7]).drop
        (civEchoStrip true true true [254, 254, 148, 224, 3, 253]
          ([254, 254, 148, 224, 3, 253] ++ [7])).1 = [7]) ∧
    (civEchoStrip true true true [254, 254, 148, 224, 3, 253]
        [254, 254, 148, 224, 3, 253] = (0, false) ∧
      ([254, 254, 148, 224, 3, 253] : List Nat).drop
        (civEchoStrip true true true [254, 254, 148, 224, 3, 253]
          [254, 254, 148, 224, 3, 253]).1 = [254, 254, 148, 224, 3, 253]) :=
  ⟨civEchoStrip_spec.1 [254, 254, 148, 224, 3, 253] [7]
      ([254, 254, 148, 224, 3, 253] ++ [7]) (by decide) (by decide) rfl,
   civEchoStrip_spec.2 [254, 254, 148, 224, 3, 253] (by decide)⟩


/-! ## Theorems about the gap timer and RX buffer (C3, C5) -/

theorem elapsedMs_eq (now last : Nat) (h1 : last ≤ now) (h2 : now - last < 4294967296) :
    elapsedMs now last = now - last := by
  unfold elapsedMs
  omega

theorem pollGap_flush (gap t : Nat) (st : RxState) (hbuf : st.buf ≠ [])
    (h1 : st.lastRxMs ≤ t) (h2 : t - st.lastRxMs < 4294967296) :
    (gap < t - st.lastRxMs →
      pollGap gap t st
        = { buf := [], lastRxMs := st.lastRxMs, flushes := st.flushes ++ [(t, st.buf)] }) ∧
    (t - st.lastRxMs ≤ gap → pollGap gap t st = st) := by
  constructor
  · intro hgt
    unfold pollGap
    rw [if_pos ⟨hbuf, by rw [elapsedMs_eq t st.lastRxMs h1 h2]; omega⟩]
    unfold flushRx
    rw [if_neg hbuf]
  · intro hle
    unfold pollGap
    rw [if_neg]
    rintro ⟨-, hgt⟩
    rw [elapsedMs_eq t st.lastRxMs h1 h2] at hgt
    omega

theorem onRxByte_gap (gap b t : Nat) (st : RxState) (hbuf : st.buf ≠ [])
    (hlen : st.buf.length < RX_BUF_MAX)
    (h1 : st.lastRxMs ≤ t) (h2 : t - st.lastRxMs < 4294967296) :
    (gap < t - st.lastRxMs →
      onRxByte gap false b t st
        = { buf := [b], lastRxMs := t, flushes := st.flushes ++ [(t, st.buf)] }) ∧
    (t - st.lastRxMs ≤ gap →
      onRxByte gap false b t st
        = { buf := st.buf ++ [b], lastRxMs := t, flushes := st.flushes }) := by
  constructor
  · intro hgt
    simp only [onRxByte, flushRx, elapsedMs_eq t st.lastRxMs h1 h2]
    simp [hbuf, hgt, RX_BUF_MAX]
  · intro hle
    have hngt : ¬ (st.buf ≠ [] ∧ gap < t - st.lastRxMs) := by
      rintro ⟨-, hgt⟩
      omega
    simp only [onRxByte, flushRx, elapsedMs_eq t st.lastRxMs h1 h2]
    rw [if_neg hngt]
    simp [hlen]

/-- **C3** (amended): with threshold 25 ms, arrivals at 0, 5, 10 ms, and a
gap poll every millisecond, the buffer is flushed at t = 36 ms — the first
instant whose elapsed time since the last arrival strictly exceeds the
threshold — and not earlier; in general a non-empty buffer is flushed by a
poll or arrival exactly when the elapsed time strictly exceeds the
threshold, never while it is at most the threshold.  (The original claim
placed the flush at t = 35 ms = last arrival + threshold, but the source
compares with strict `>`, so elapsed = 25 does not flush — see the
counterexample.) -/
theorem gapFlush_spec :
    ((runRx 25 false initRxState
        ([RxEvent.byte 1 0, RxEvent.byte 2 5, RxEvent.byte 3 10] ++
          (List.range 26).map (fun k => RxEvent.poll (11 + k)))).flushes
      = [(36, [1, 2, 3])]) ∧
    (∀ gap t : Nat, ∀ st : RxState, st.buf ≠ [] → st.lastRxMs ≤ t →
        t - st.lastRxMs < 4294967296 →
      (gap < t - st.lastRxMs →
        pollGap gap t st
          = { buf := [], lastRxMs := st.lastRxMs, flushes := st.flushes ++ [(t, st.buf)] }) ∧
      (t - st.lastRxMs ≤ gap → pollGap gap t st = st)) ∧
    (∀ gap b t : Nat, ∀ st : RxState, st.buf ≠ [] → st.buf.length < RX_BUF_MAX →
        st.lastRxMs ≤ t → t - st.lastRxMs < 4294967296 →
      (gap < t - st.lastRxMs →
        onRxByte gap false b t st
          = { buf := [b], lastRxMs := t, flushes := st.flushes ++ [(t, st.buf)] }) ∧
      (t - st.lastRxMs ≤ gap →
        onRxByte gap false b t st
          = { buf := st.buf ++ [b], lastRxMs := t, flushes := st.flushes })) :=
  ⟨by decide,
   fun gap t st hbuf h1 h2 => pollGap_flush gap t st hbuf h1 h2,
   fun gap b t st hbuf hlen h1 h2 => onRxByte_gap gap b t st hbuf hlen h1 h2⟩

theorem gapFlush_spec_witness :
    pollGap 25 36 { buf := [1, 2, 3], lastRxMs := 10, flushes := [] }
      = { buf := [], lastRxMs := 10, flushes := [(36, [1, 2, 3])] } ∧
    pollGap 25 35 { buf := [1, 2, 3], lastRxMs := 10, flushes := [] }
      = { buf := [1, 2, 3], lastRxMs := 10, flushes := [] } ∧
    onRxByte 25 false 7 40 { buf := [1, 2, 3], lastRxMs := 10, flushes := [] }
      = { buf := [7], lastRxMs := 40, flushes := [(40, [1, 2, 3])] } ∧
    onRxByte 25 false 7 20 { buf := [1, 2, 3], lastRxMs := 10, flushes := [] }
      = { buf := [1, 2, 3, 7], lastRxMs := 20, flushes := [] } :=
  ⟨(gapFlush_spec.2.1 25 36 _ (by decide) (by decide) (by decide)).1 (by decide),
   (gapFlush_spec.2.1 25 35 _ (by decide) (by decide) (by decide)).2 (by decide),
   (gapFlush_spec.2.2 25 7 40 _ (by decide) (by decide) (by decide) (by decide)).1 (by decide),
   (gapFlush_spec.2.2 25 7 20 _ (by decide) (by decide) (by decide) (by decide)).2 (by decide)⟩

/-- **C3** counterexample to the claim as stated: with arrivals at 0, 5,
10 ms, threshold 25 ms, and a gap poll at every millisecond up to and
including t = 35 ms, nothing has been flushed at t = 35 ms: the source's
strict comparison `(now - gLastRxMs) > gap` is false at elapsed = 25. -/
theorem gapFlush_counterexample :
    (runRx 25 false initRxState
      ([RxEvent.byte 1 0, RxEvent.byte 2 5, RxEvent.byte 3 10] ++
        (List.range 25).map (fun k => RxEvent.poll (11 + k)))).flushes = [] := by
  decide

theorem flushRx_conserve (t : Nat) (st : RxState) :
    flushedBytes (flushRx t st) ++ (flushRx t st).buf = flushedBytes st ++ st.buf := by
  unfold flushRx
  by_cases h : st.buf = []
  · rw [if_pos h]
  · rw [if_neg h]
    simp [flushedBytes]

theorem onRxByte_conserve (gap : Nat) (p : Bool) (b t : Nat) (st : RxState) :
    flushedBytes (onRxByte gap p b t st) ++ (onRxByte gap p b t st).buf
      = (flushedBytes st ++ st.buf) ++ [b] := by
  unfold onRxByte
  set st1 := if st.buf ≠ [] ∧ elapsedMs t st.lastRxMs > gap then flushRx t st else st with hst1
  have hc1 : flushedBytes st1 ++ st1.buf = flushedBytes st ++ st.buf := by
    rw [hst1]
    by_cases h : st.buf ≠ [] ∧ elapsedMs t st.lastRxMs > gap
    · rw [if_pos h]
      exact flushRx_conserve t st
    · rw [if_neg h]
  set st2 : RxState := { st1 with lastRxMs := t } with hst2
  have hc2 : flushedBytes st2 ++ st2.buf = flushedBytes st ++ st.buf := hc1
  set st3 := if st2.buf.length < RX_BUF_MAX then ({ st2 with buf := st2.buf ++ [b] } : RxState)
    else { flushRx t st2 with buf := (flushRx t st2).buf ++ [b] } with hst3
  have hc3 : flushedBytes st3 ++ st3.buf = (flushedBytes st ++ st.buf) ++ [b] := by
    rw [hst3]
    by_cases h : st2.buf.length < RX_BUF_MAX
    · rw [if_pos h]
      show flushedBytes st2 ++ (st2.buf ++ [b]) = _
      rw [← List.append_assoc, hc2]
    · rw [if_neg h]
      show flushedBytes (flushRx t st2) ++ ((flushRx t st2).buf ++ [b]) = _
      rw [← List.append_assoc, flushRx_conserve t st2, hc2]
  by_cases h : b = 59 ∧ p = true
  · rw [if_pos h, ← hc3]
    exact flushRx_conserve t st3
  · rw [if_neg h]
    exact hc3

theorem pollGap_conserve (gap t : Nat) (st : RxState) :
    flushedBytes (pollGap gap t st) ++ (pollGap gap t st).buf
      = flushedBytes st ++ st.buf := by
  unfold pollGap
  by_cases h : st.buf ≠ [] ∧ elapsedMs t st.lastRxMs > gap
  · rw [if_pos h]
    exact flushRx_conserve t st
  · rw [if_neg h]

theorem runRx_conserve (gap : Nat) (p : Bool) (es : List RxEvent) :
    ∀ st : RxState,
      flushedBytes (runRx gap p st es) ++ (runRx gap p st es).buf
        = (flushedBytes st ++ st.buf) ++ ingestedBytes es := by
  induction es with
  | nil => intro st; simp [runRx, ingestedBytes]
  | cons e es ih =>
    intro st
    cases e with
    | byte b t =>
      simp only [runRx]
      rw [ih (onRxByte gap p b t st), onRxByte_conserve]
      simp [ingestedBytes]
    | poll t =>
      simp only [runRx]
      rw [ih (pollGap gap t st), pollGap_conserve]
      simp [ingestedBytes]

theorem flushRx_buf_len (t : Nat) (st : RxState) :
    (flushRx t st).buf.length ≤ st.buf.length := by
  unfold flushRx
  by_cases h : st.buf = []
  · rw [if_pos h]
  · rw [if_neg h]
    simp

theorem onRxByte_buf_le (gap : Nat) (p : Bool) (b t : Nat) (st : RxState)
    (hst : st.buf.length ≤ RX_BUF_MAX) :
    (onRxByte gap p b t st).buf.length ≤ RX_BUF_MAX := by
  unfold onRxByte
  set st1 := if st.buf ≠ [] ∧ elapsedMs t st.lastRxMs > gap then flushRx t st else st with hst1
  have h1 : st1.buf.length ≤ RX_BUF_MAX := by
    rw [hst1]
    by_cases h : st.buf ≠ [] ∧ elapsedMs t st.lastRxMs > gap
    · rw [if_pos h]
      exact le_trans (flushRx_buf_len t st) hst
    · rw [if_neg h]
      exact hst
  set st2 : RxState := { st1 with lastRxMs := t } with hst2
  set st3 := if st2.buf.length < RX_BUF_MAX then ({ st2 with buf := st2.buf ++ [b] } : RxState)
    else { flushRx t st2 with buf := (flushRx t st2).buf ++ [b] } with hst3
  have h3 : st3.buf.length ≤ RX_BUF_MAX := by
    rw [hst3]
    by_cases h : st2.buf.length < RX_BUF_MAX
    · rw [if_pos h]
      simpa using h
    · rw [if_neg h]
      have hne2 : st2.buf ≠ [] := by
        intro hnil
        rw [show st2.buf = st1.buf from rfl, hnil] at h
        simp [RX_BUF_MAX] at h
      show ((flushRx t st2).buf ++ [b]).length ≤ RX_BUF_MAX
      unfold flushRx
      rw [if_neg hne2]
      simp [RX_BUF_MAX]
  by_cases h : b = 59 ∧ p = true
  · rw [if_pos h]
    exact le_trans (flushRx_buf_len t st3) h3
  · rw [if_neg h]
    exact h3

theorem pollGap_buf_le (gap t : Nat) (st : RxState) (hst : st.buf.length ≤ RX_BUF_MAX) :
    (pollGap gap t st).buf.length ≤ RX_BUF_MAX := by
  unfold pollGap
  by_cases h : st.buf ≠ [] ∧ elapsedMs t st.lastRxMs > gap
  · rw [if_pos h]
    exact le_trans (flushRx_buf_len t st) hst
  · rw [if_neg h]
    exact hst

theorem runRx_buf_le (gap : Nat) (p : Bool) (es : List RxEvent) :
    ∀ st : RxState, st.buf.length ≤ RX_BUF_MAX →
      (runRx gap p st es).buf.length ≤ RX_BUF_MAX := by
  induction es with
  | nil => intro st h; exact h
  | cons e es ih =>
    intro st h
    cases e with
    | byte b t => exact ih _ (onRxByte_buf_le gap p b t st h)
    | poll t => exact ih _ (pollGap_buf_le gap t st h)

theorem onRxByte_full (gap : Nat) (b t : Nat) (st : RxState)
    (hfull : st.buf.length = RX_BUF_MAX) :
    (onRxByte gap false b t st).buf = [b] ∧
    (onRxByte gap false b t st).flushes = st.flushes ++ [(t, st.buf)] := by
  have hne : st.buf ≠ [] := by
    intro hnil
    rw [hnil] at hfull
    simp [RX_BUF_MAX] at hfull
  unfold onRxByte
  by_cases h : st.buf ≠ [] ∧ elapsedMs t st.lastRxMs > gap
  · rw [if_pos h]
    unfold flushRx
    rw [if_neg hne]
    simp [RX_BUF_MAX]
  · rw [if_neg h]
    have hnlt : ¬ st.buf.length < RX_BUF_MAX := by omega
    simp [flushRx, hne, hnlt]

/-- **C5**: for every event sequence the RX buffer never exceeds its
capacity of `RX_BUF_MAX = 512` bytes; the flushed output plus the current
buffer always equals the initial content plus every ingested byte in order
(nothing is ever silently discarded); and an append to a full buffer forces
a flush of the old content before the new byte is inserted. -/
theorem rxBuffer_capacity_and_conservation :
    (∀ (gap : Nat) (p : Bool) (st : RxState) (es : List RxEvent),
      st.buf.length ≤ RX_BUF_MAX → (runRx gap p st es).buf.length ≤ RX_BUF_MAX) ∧
    (∀ (gap : Nat) (p : Bool) (st : RxState) (es : List RxEvent),
      flushedBytes (runRx gap p st es) ++ (runRx gap p st es).buf
        = (flushedBytes st ++ st.buf) ++ ingestedBytes es) ∧
    (∀ (gap b t : Nat) (st : RxState), st.buf.length = RX_BUF_MAX →
      (onRxByte gap false b t st).buf = [b] ∧
      (onRxByte gap false b t st).flushes = st.flushes ++ [(t, st.buf)]) :=
  ⟨fun gap p st es h => runRx_buf_le gap p es st h,
   fun gap p st es => runRx_conserve gap p es st,
   fun gap b t st h => onRxByte_full gap b t st h⟩

theorem rxBuffer_capacity_and_conservation_witness :
    ((runRx 25 false initRxState [RxEvent.byte 1 0, RxEvent.byte 2 5]).buf.length
      ≤ RX_BUF_MAX) ∧
    (flushedBytes (runRx 25 false initRxState [RxEvent.byte 1 0, RxEvent.poll 40]) ++
        (runRx 25 false initRxState [RxEvent.byte 1 0, RxEvent.poll 40]).buf
      = (flushedBytes initRxState ++ initRxState.buf) ++
          ingestedBytes [RxEvent.byte 1 0, RxEvent.poll 40]) ∧
    ((onRxByte 25 false 9 1000
        { buf := List.replicate 512 5, lastRxMs := 0, flushes := [] }).buf = [9]) ∧
    ((onRxByte 25 false 9 1000
        { buf := List.replicate 512 5, lastRxMs := 0, flushes := [] }).flushes
      = [] ++ [(1000, List.replicate 512 5)]) :=
  ⟨rxBuffer_capacity_and_conservation.1 25 false initRxState
      [RxEvent.byte 1 0, RxEvent.byte 2 5] (by decide),
   rxBuffer_capacity_and_conservation.2.1 25 false initRxState
      [RxEvent.byte 1 0, RxEvent.poll 40],
   (rxBuffer_capacity_and_conservation.2.2 25 9 1000
      { buf := List.replicate 512 5, lastRxMs := 0, flushes := [] } (by rw [List.length_replicate, RX_BUF_MAX])).1,
   (rxBuffer_capacity_and_conservation.2.2 25 9 1000
      { buf := List.replicate 512 5, lastRxMs := 0, flushes := [] } (by rw [List.length_replicate, RX_BUF_MAX])).2⟩


/-! ## Theorems about hex TX validation and the TX paths (C6, C7, C8) -/

theorem scanHexChars_ok (l : List Char)
    (h : ∀ c ∈ l, isWs4 c = false → isHexChar c = true) :
    scanHexChars l = .ok (l.filter (fun c => !(isWs4 c))) := by
  induction l with
  | nil => rfl
  | cons c rest ih =>
    have hrest : ∀ c ∈ rest, isWs4 c = false → isHexChar c = true :=
      fun x hx => h x (List.mem_cons_of_mem c hx)
    by_cases hws : isWs4 c = true
    · rw [scanHexChars, if_pos hws, ih hrest]
      simp [List.filter, hws]
    · have hhex : isHexChar c = true := h c (List.mem_cons_self c rest) (by simpa using hws)
      rw [scanHexChars, if_neg hws, if_pos hhex, ih hrest]
      have hf : List.filter (fun c => !isWs4 c) (c :: rest)
          = c :: List.filter (fun c => !isWs4 c) rest := by
        simp [List.filter, hws]
      rw [hf]
      rfl

theorem scanHexChars_err (l : List Char)
    (h : ∃ c ∈ l, isWs4 c = false ∧ isHexChar c = false) :
    scanHexChars l = .error "Ungueltiges Zeichen im Hex-String." := by
  induction l with
  | nil => simp at h
  | cons c rest ih =>
    obtain ⟨x, hx, hxw, hxh⟩ := h
    rcases List.mem_cons.mp hx with rfl | hx
    · rw [scanHexChars, if_neg (by simp [hxw]), if_neg (by simp [hxh])]
    · by_cases hws : isWs4 c = true
      · rw [scanHexChars, if_pos hws]
        exact ih ⟨x, hx, hxw, hxh⟩
      · by_cases hhex : isHexChar c = true
        · rw [scanHexChars, if_neg hws, if_pos hhex, ih ⟨x, hx, hxw, hxh⟩]
          rfl
        · rw [scanHexChars, if_neg hws, if_neg hhex]

theorem hexNibble_of_isHexChar (c : Char) (h : isHexChar c = true) :
    ∃ v, hexNibble c = some v := by
  unfold isHexChar at h
  rw [decide_eq_true_iff] at h
  unfold hexNibble
  rcases h with h | h | h
  · rw [if_pos h]
    exact ⟨_, rfl⟩
  · rw [if_neg (by omega), if_pos h]
    exact ⟨_, rfl⟩
  · rw [if_neg (by omega), if_neg (by omega), if_pos h]
    exact ⟨_, rfl⟩

theorem hexPairsToBytes_ok (l : List Char) (hall : ∀ c ∈ l, isHexChar c = true)
    (heven : l.length % 2 = 0) :
    ∃ bs, hexPairsToBytes l = .ok bs ∧ bs.length = l.length / 2 := by
  induction l using hexPairsToBytes.induct with
  | case1 => exact ⟨[], rfl, rfl⟩
  | case2 a => simp at heven
  | case3 hi lo rest vh vl hvl hvh ih =>
    have hallr : ∀ c ∈ rest, isHexChar c = true :=
      fun x hx => hall x (by simp [hx])
    have hevenr : rest.length % 2 = 0 := by
      simp [List.length_cons] at heven
      omega
    obtain ⟨bs, hbs, hlen⟩ := ih hallr hevenr
    refine ⟨(vh * 16 + vl) :: bs, ?_, ?_⟩
    · rw [hexPairsToBytes, hvh, hvl, hbs]
      rfl
    · simp [hlen, List.length_cons]
      omega
  | case4 hi lo rest hcontra =>
    exfalso
    obtain ⟨vh, hvh⟩ := hexNibble_of_isHexChar hi (hall hi (by simp))
    obtain ⟨vl, hvl⟩ := hexNibble_of_isHexChar lo (hall lo (by simp))
    exact hcontra vh vl hvh hvl

theorem hexPairsToBytes_length (l : List Char) :
    ∀ bs, hexPairsToBytes l = .ok bs → bs.length = l.length / 2 := by
  induction l using hexPairsToBytes.induct with
  | case1 =>
    intro bs h
    cases h
    rfl
  | case2 a =>
    intro bs h
    rw [hexPairsToBytes] at h
    simp at h
  | case3 hi lo rest vh vl hvl hvh ih =>
    intro bs h
    rw [hexPairsToBytes, hvh, hvl] at h
    cases hr : hexPairsToBytes rest with
    | error e =>
      rw [hr] at h
      simp [Except.map] at h
    | ok bs1 =>
      rw [hr] at h
      simp [Except.map] at h
      have := ih bs1 hr
      rw [← h]
      simp [List.length_cons, this]
      omega
  | case4 hi lo rest hcontra =>
    intro bs h
    rw [hexPairsToBytes] at h
    cases hh : hexNibble hi with
    | none =>
      rw [hh] at h
      simp at h
    | some vh =>
      cases hl : hexNibble lo with
      | none =>
        rw [hh, hl] at h
        simp at h
      | some vl => exact absurd (hcontra vh vl hh hl) not_false

theorem parseHexString_ok_length (s : String) (outMax : Nat) (bs : List Nat)
    (h : parseHexString s outMax = .ok bs) : bs.length ≤ outMax := by
  unfold parseHexString at h
  by_cases h0 : (trimC s.data).length = 0
  · rw [if_pos h0] at h
    simp at h
  · rw [if_neg h0] at h
    cases hscan : scanHexChars (trimC s.data) with
    | error e =>
      rw [hscan] at h
      simp at h
    | ok compact =>
      rw [hscan] at h
      dsimp only at h
      by_cases hodd : compact.length % 2 ≠ 0
      · rw [if_pos hodd] at h
        simp at h
      · rw [if_neg hodd] at h
        by_cases hbig : compact.length / 2 > outMax
        · rw [if_pos hbig] at h
          simp at h
        · rw [if_neg hbig] at h
          have := hexPairsToBytes_length compact bs h
          omega

/-- **C6**: for every input string, the hex parser trims the input and
rejects an all-whitespace/empty input; skips whitespace; rejects any other
non-hex-digit character with the invalid-character error; rejects an odd
hex-digit count with the odd-digit-count error; rejects a digit count
exceeding twice the TX byte budget of 256 bytes with the too-many-bytes
error; and otherwise succeeds with exactly digit-count/2 bytes — so
"FE FE 94 E0 03 FD" parses to the 6 bytes and "ABC" is rejected for its
odd digit count. -/
theorem parseHexString_spec :
    (∀ s : String, trimC s.data = [] →
      parseHexString s TX_MAX_BYTES = .error "Leere Eingabe.") ∧
    (∀ s : String,
      (∃ c ∈ trimC s.data, isWs4 c = false ∧ isHexChar c = false) →
      parseHexString s TX_MAX_BYTES = .error "Ungueltiges Zeichen im Hex-String.") ∧
    (∀ s : String, trimC s.data ≠ [] →
      (∀ c ∈ trimC s.data, isWs4 c = false → isHexChar c = true) →
      ((trimC s.data).filter (fun c => !(isWs4 c))).length % 2 = 1 →
      parseHexString s TX_MAX_BYTES = .error "Ungerade Anzahl Hex-Zeichen (Byte fehlt).") ∧
    (∀ s : String, trimC s.data ≠ [] →
      (∀ c ∈ trimC s.data, isWs4 c = false → isHexChar c = true) →
      ((trimC s.data).filter (fun c => !(isWs4 c))).length % 2 = 0 →
      2 * TX_MAX_BYTES < ((trimC s.data).filter (fun c => !(isWs4 c))).length →
      parseHexString s TX_MAX_BYTES = .error "Zu viele Bytes (max. 256).") ∧
    (∀ s : String, trimC s.data ≠ [] →
      (∀ c ∈ trimC s.data, isWs4 c = false → isHexChar c = true) →
      ((trimC s.data).filter (fun c => !(isWs4 c))).length % 2 = 0 →
      ((trimC s.data).filter (fun c => !(isWs4 c))).length ≤ 2 * TX_MAX_BYTES →
      ∃ bs, parseHexString s TX_MAX_BYTES = .ok bs ∧
        bs.length = ((trimC s.data).filter (fun c => !(isWs4 c))).length / 2) ∧
    parseHexString "FE FE 94 E0 03 FD" TX_MAX_BYTES = .ok [254, 254, 148, 224, 3, 253] ∧
    parseHexString "ABC" TX_MAX_BYTES = .error "Ungerade Anzahl Hex-Zeichen (Byte fehlt)." := by
  refine ⟨?_, ?_, ?_, ?_, ?_, by rfl, by rfl⟩
  · intro s h
    simp [parseHexString, h]
  · intro s hbad
    have hne : trimC s.data ≠ [] := by
      obtain ⟨c, hc, -⟩ := hbad
      intro hnil
      rw [hnil] at hc
      simp at hc
    have h0 : ¬ (trimC s.data).length = 0 := by
      simpa [List.length_eq_zero] using hne
    have hscan := scanHexChars_err _ hbad
    unfold parseHexString
    rw [if_neg h0, hscan]
  · intro s hne hall hodd
    have h0 : ¬ (trimC s.data).length = 0 := by
      simpa [List.length_eq_zero] using hne
    have hscan := scanHexChars_ok _ hall
    unfold parseHexString
    rw [if_neg h0, hscan]
    dsimp only
    rw [if_pos (by omega)]
  · intro s hne hall heven hbig
    have h0 : ¬ (trimC s.data).length = 0 := by
      simpa [List.length_eq_zero] using hne
    have hscan := scanHexChars_ok _ hall
    unfold parseHexString
    rw [if_neg h0, hscan]
    dsimp only
    rw [if_neg (by omega), if_pos (by simp [TX_MAX_BYTES] at hbig ⊢; omega)]
    rfl
  · intro s hne hall heven hsmall
    have h0 : ¬ (trimC s.data).length = 0 := by
      simpa [List.length_eq_zero] using hne
    have hscan := scanHexChars_ok _ hall
    have hallf : ∀ c ∈ (trimC s.data).filter (fun c => !(isWs4 c)), isHexChar c = true := by
      intro c hc
      rw [List.mem_filter] at hc
      exact hall c hc.1 (by simpa using hc.2)
    obtain ⟨bs, hbs, hlen⟩ := hexPairsToBytes_ok _ hallf heven
    refine ⟨bs, ?_, hlen⟩
    unfold parseHexString
    rw [if_neg h0, hscan]
    dsimp only
    rw [if_neg (by omega), if_neg (by simp [TX_MAX_BYTES] at hsmall ⊢; omega)]
    exact hbs

/-- **C7**: every rejected hex-path input (empty, invalid character, odd
digit count, over budget — i.e. any parse error) transmits nothing and
leaves the last-TX record (bytes and frame-shape flag) completely
unchanged; only the error is reported.  (`sendHexLine` touches no other
state at all on this path.) -/
theorem sendHexLine_reject_atomic :
    ∀ (s : String) (txr : TxRecord) (e : String),
      parseHexString s TX_MAX_BYTES = .error e →
      sendHexLine s txr = (txr, [], some e) := by
  intro s txr e h
  unfold sendHexLine
  rw [h]

theorem sendHexLine_reject_atomic_witness :
    sendHexLine "ABC" { lastTx := [254, 253], lastTxIsCiv := false }
      = ({ lastTx := [254, 253], lastTxIsCiv := false }, [],
          some "Ungerade Anzahl Hex-Zeichen (Byte fehlt).") :=
  sendHexLine_reject_atomic "ABC" _ _ (by rfl)

/-- **C8** (amended): after a hex-path transmission the record holds
exactly the transmitted bytes together with the binary-frame-shape flag of
that sequence; after an ASCII-path transmission the record holds the first
`min(256, n)` transmitted bytes with the flag computed on that recorded
prefix — which is exactly the transmitted sequence whenever at most 256
bytes were transmitted.  The record is rebuilt wholly on each
transmission.  (The original claim fails on the ASCII path for inputs
longer than 256 bytes: everything is transmitted but only 256 bytes are
recorded — see the counterexample.) -/
theorem lastTxRecord_spec :
    (∀ (s : String) (txr : TxRecord) (bytes : List Nat),
      parseHexString s TX_MAX_BYTES = .ok bytes →
      sendHexLine s txr
        = ({ lastTx := bytes, lastTxIsCiv := isCivFrame bytes }, bytes, none)) ∧
    (∀ (s : String) (txr : TxRecord),
      (sendAsciiRaw s txr).1.lastTx = ((sendAsciiRaw s txr).2).take TX_MAX_BYTES ∧
      (sendAsciiRaw s txr).1.lastTxIsCiv
        = isCivFrame (((sendAsciiRaw s txr).2).take TX_MAX_BYTES) ∧
      ((sendAsciiRaw s txr).2.length ≤ TX_MAX_BYTES →
        (sendAsciiRaw s txr).1.lastTx = (sendAsciiRaw s txr).2)) := by
  constructor
  · intro s txr bytes h
    unfold sendHexLine
    rw [h]
    dsimp only
    have hlen := parseHexString_ok_length s TX_MAX_BYTES bytes h
    rw [List.take_of_length_le hlen]
  · intro s txr
    have hmap : ((trimC s.data).take TX_MAX_BYTES).map Char.toNat
        = ((trimC s.data).map Char.toNat).take TX_MAX_BYTES := List.map_take _ _ _
    refine ⟨?_, ?_, ?_⟩
    · show (((trimC s.data).take TX_MAX_BYTES).map Char.toNat).take TX_MAX_BYTES
        = ((trimC s.data).map Char.toNat).take TX_MAX_BYTES
      rw [hmap, List.take_take, min_self]
    · show isCivFrame (((trimC s.data).take TX_MAX_BYTES).map Char.toNat)
        = isCivFrame (((trimC s.data).map Char.toNat).take TX_MAX_BYTES)
      rw [hmap]
    · intro hle
      have hle2 : ((trimC s.data).map Char.toNat).length ≤ TX_MAX_BYTES := hle
      show (((trimC s.data).take TX_MAX_BYTES).map Char.toNat).take TX_MAX_BYTES
        = (trimC s.data).map Char.toNat
      rw [hmap, List.take_take, min_self]
      exact List.take_of_length_le hle2

theorem lastTxRecord_spec_witness :
    (sendHexLine "FE FE 94 E0 03 FD" { lastTx := [], lastTxIsCiv := false }
      = ({ lastTx := [254, 254, 148, 224, 3, 253],
            lastTxIsCiv := isCivFrame [254, 254, 148, 224, 3, 253] },
          [254, 254, 148, 224, 3, 253], none)) ∧
    ((sendAsciiRaw "RX;" { lastTx := [], lastTxIsCiv := false }).1.lastTx
      = ((sendAsciiRaw "RX;" { lastTx := [], lastTxIsCiv := false }).2).take TX_MAX_BYTES) ∧
    ((sendAsciiRaw "RX;" { lastTx := [], lastTxIsCiv := false }).1.lastTx
      = (sendAsciiRaw "RX;" { lastTx := [], lastTxIsCiv := false }).2) :=
  ⟨lastTxRecord_spec.1 "FE FE 94 E0 03 FD" _ [254, 254, 148, 224, 3, 253] (by rfl),
   (lastTxRecord_spec.2 "RX;" _).1,
   (lastTxRecord_spec.2 "RX;" _).2.2 (by decide)⟩

/-- **C8** counterexample to the claim as stated: an ASCII send of 257
characters transmits 257 bytes but records only the first 256, so the
record does not hold the transmitted sequence. -/
theorem lastTxRecord_counterexample :
    ((sendAsciiRaw (String.mk (List.replicate 257 'A'))
        { lastTx := [], lastTxIsCiv := false }).2).length = 257 ∧
    ((sendAsciiRaw (String.mk (List.replicate 257 'A'))
        { lastTx := [], lastTxIsCiv := false }).1.lastTx).length = 256 ∧
    (sendAsciiRaw (String.mk (List.replicate 257 'A'))
        { lastTx := [], lastTxIsCiv := false }).1.lastTx
      ≠ (sendAsciiRaw (String.mk (List.replicate 257 'A'))
        { lastTx := [], lastTxIsCiv := false }).2 := by
  decide


theorem parseHexString_spec_witness :
    parseHexString "   " TX_MAX_BYTES = .error "Leere Eingabe." ∧
    parseHexString "0G" TX_MAX_BYTES = .error "Ungueltiges Zeichen im Hex-String." ∧
    parseHexString "ABC" TX_MAX_BYTES = .error "Ungerade Anzahl Hex-Zeichen (Byte fehlt)." ∧
    parseHexString (String.mk (List.replicate 514 'A')) TX_MAX_BYTES
      = .error "Zu viele Bytes (max. 256)." ∧
    (∃ bs, parseHexString "FE" TX_MAX_BYTES = .ok bs ∧
      bs.length = ((trimC "FE".data).filter (fun c => !(isWs4 c))).length / 2) :=
  ⟨parseHexString_spec.1 "   " (by decide),
   parseHexString_spec.2.1 "0G" ⟨'G', by decide, by decide, by decide⟩,
   parseHexString_spec.2.2.1 "ABC" (by decide) (by decide) (by decide),
   parseHexString_spec.2.2.2.1 (String.mk (List.replicate 514 'A'))
     (by decide) (by decide) (by decide) (by decide),
   parseHexString_spec.2.2.2.2.1 "FE" (by decide) (by decide) (by decide) (by decide)⟩

/-! ## Theorems about frequency rendering (C9) -/

theorem decDigitsGo_length : ∀ (fuel n k : Nat), n < 10 ^ k →
    (decDigitsGo fuel n).length ≤ k := by
  intro fuel
  induction fuel with
  | zero =>
    intro n k h
    simp [decDigitsGo]
  | succ f ih =>
    intro n k h
    by_cases h0 : n = 0
    · simp [decDigitsGo, h0]
    · rw [decDigitsGo, if_neg h0]
      rcases k with _ | k1
      · simp at h
        omega
      · have hdiv : n / 10 < 10 ^ k1 := by
          rw [Nat.div_lt_iff_lt_mul (by norm_num)]
          calc n < 10 ^ (k1 + 1) := h
          _ = 10 ^ k1 * 10 := by ring
        have := ih (n / 10) k1 hdiv
        simp [List.length_append]
        omega

theorem decRepr_length_le (rem : Nat) (h : rem < 1000000) : (decRepr rem).length ≤ 6 := by
  unfold decRepr
  by_cases h0 : rem = 0
  · simp [h0]
  · rw [if_neg h0]
    exact decDigitsGo_length rem rem 6 (by norm_num; omega)

theorem list_len6 {α : Type} (l : List α) (h : l.length = 6) :
    ∃ a b c d e f, l = [a, b, c, d, e, f] := by
  rcases l with _ | ⟨a, _ | ⟨b, _ | ⟨c, _ | ⟨d, _ | ⟨e, _ | ⟨f, _ | ⟨g, t⟩⟩⟩⟩⟩⟩⟩ <;>
    simp at h ⊢

/-- **C9**: for every hertz value in the decoder's `uint32_t` range, the
rendered string is the whole-megahertz part, a dot, the first 3 digits of
the zero-padded 6-digit remainder, a dot, the last 3 digits of that
remainder, then " MHz"; in particular 14074000 renders as
"14.074.000 MHz". -/
theorem printHzAsMHz_spec :
    (∀ hz : Nat, hz ≤ 4294967295 → printHzAsMHz hz = specRenderMHz hz) ∧
    printHzAsMHz 14074000 = "14.074.000 MHz" := by
  constructor
  · intro hz hb
    unfold printHzAsMHz specRenderMHz
    have hlen : (List.leftpad 6 '0' (decRepr (hz % 1000000))).length = 6 := by
      rw [List.leftpad_length]
      have := decRepr_length_le (hz % 1000000) (Nat.mod_lt _ (by norm_num))
      omega
    obtain ⟨a, b, c, d, e, f, heq⟩ := list_len6 _ hlen
    dsimp only
    rw [heq]
    rfl
  · decide

theorem printHzAsMHz_spec_witness :
    printHzAsMHz 14330000 = specRenderMHz 14330000 :=
  printHzAsMHz_spec.1 14330000 (by decide)

/-! ## Theorems about the Elecraft accumulation loop (C10) -/

theorem eleSplitGo_filter (buf : List Nat) :
    ∀ accum : List Nat,
      eleSplitGo accum buf = eleSplitGo accum (buf.filter (fun b => !(b == 13 || b == 10))) := by
  induction buf with
  | nil => intro accum; rfl
  | cons b rest ih =>
    intro accum
    by_cases hcr : b = 13 ∨ b = 10
    · have hf : (b :: rest).filter (fun b => !(b == 13 || b == 10))
          = rest.filter (fun b => !(b == 13 || b == 10)) := by
        rcases hcr with rfl | rfl <;> simp
      rw [hf, eleSplitGo, if_pos hcr]
      exact ih accum
    · have hf : (b :: rest).filter (fun b => !(b == 13 || b == 10))
          = b :: rest.filter (fun b => !(b == 13 || b == 10)) := by
        simp at hcr
        simp [hcr.1, hcr.2]
      rw [hf, eleSplitGo, eleSplitGo, if_neg hcr, if_neg hcr]
      by_cases hsemi : b = 59
      · rw [if_pos hsemi, if_pos hsemi, ih []]
      · rw [if_neg hsemi, if_neg hsemi, ih (accum ++ [b])]

/-- **C10**: ASCII-protocol decoding of a flushed buffer skips CR/LF bytes
silently — the messages extracted are exactly those of the buffer with all
CR/LF bytes removed, so a message split around CR/LF still decodes as one
message ending at the terminator — while the raw hex dump renders every
byte of the flush, CR/LF included (token `i` is the hex rendering of byte
`i`, and `hex2` is invertible on bytes, so the dump hides nothing). -/
theorem eleSplit_crlf :
    (∀ buf : List Nat,
      eleSplit buf = eleSplit (buf.filter (fun b => !(b == 13 || b == 10)))) ∧
    (∀ (buf : List Nat) (i : Nat), i < buf.length →
      (hexTokens buf).getD i "" = hex2 (buf.getD i 0)) ∧
    (∀ b : Nat, b < 256 → unhex2 (hex2 b) = some b) := by
  refine ⟨fun buf => eleSplitGo_filter buf [], ?_, by decide⟩
  intro buf
  induction buf with
  | nil =>
    intro i hi
    simp at hi
  | cons x xs ih =>
    intro i hi
    cases i with
    | zero => rfl
    | succ j =>
      rw [hexTokens, List.map_cons, List.getD_cons_succ, List.getD_cons_succ]
      exact ih j (by simpa using hi)

theorem eleSplit_crlf_witness :
    (eleSplit [70, 65, 13, 10, 48, 59]
      = eleSplit ([70, 65, 13, 10, 48, 59].filter (fun b => !(b == 13 || b == 10)))) ∧
    ((hexTokens [70, 13, 10]).getD 1 "" = hex2 ([70, 13, 10].getD 1 0)) ∧
    (unhex2 (hex2 13) = some 13) :=
  ⟨eleSplit_crlf.1 [70, 65, 13, 10, 48, 59],
   eleSplit_crlf.2.1 [70, 13, 10] 1 (by decide),
   eleSplit_crlf.2.2 13 (by decide)⟩

end RS232Monitor
